import Mathlib

/-!
Verification of `query_optimizer/store.py` (graphene-django-query-optimizer).

The file embeds the `QueryOptimizerStore` accumulator and its compilation
into Django ORM instructions (`compile`, `compile_select`, `compile_prefetch`,
`optimize_queryset`, `complexity`, `__add__`) as Lean definitions, and proves
or refutes the spec's claims about them.

Modelling conventions:
- Python's insertion-ordered `dict` is an association list with unique keys;
  `dict.update` replaces the value of an existing key in place and appends
  new keys at the end (`dictSet` / `dictUpdate` below).
- `django.db.models.Expression` objects are opaque to the optimizer (stored
  and passed through verbatim), so they are modelled by an opaque string.
- A Django `QuerySet` is an opaque chainable handle; it is modelled
  syntactically as the chain of instructions the optimizer applied to it.
  `get_filtered_queryset` delegates to an external per-type hook
  (`DjangoObjectType.filter_queryset`) and is recorded as a marker node.
- The `model` (entity type) is an opaque handle, modelled by `Nat`; the
  opaque `info : GQLInfo` request handle is never read by the store and
  is omitted.
-/

namespace QueryOptimizer

/-- `django.db.models.constants.LOOKUP_SEP`. -/
def LOOKUP_SEP : String := "__"

/-- Opaque computed-expression descriptor (`django.db.models.Expression`). -/
abbrev Expr := String

/-- `QueryOptimizerStore` (store.py line 32): per-node optimization data.
`model` is the entity type; `only_fields` the columns requested directly;
`related_fields` the support columns needed for relations; `annotations`
the computed expressions (an insertion-ordered dict); `select_stores` the
children to be resolved by `select_related` joins and `prefetch_stores`
the children to be resolved by separate `prefetch_related` queries (both
insertion-ordered dicts keyed by relation name). -/
inductive Store where
  | mk (model : Nat)
       (only_fields : List String)
       (related_fields : List String)
       (annotations : List (String × Expr))
       (select_stores : List (String × Store))
       (prefetch_stores : List (String × Store))

/-- Field `self.model`. -/
def Store.model : Store → Nat
  | .mk m _ _ _ _ _ => m

/-- Field `self.only_fields`. -/
def Store.only_fields : Store → List String
  | .mk _ o _ _ _ _ => o

/-- Field `self.related_fields`. -/
def Store.related_fields : Store → List String
  | .mk _ _ r _ _ _ => r

/-- Field `self.annotations`. -/
def Store.annotations : Store → List (String × Expr)
  | .mk _ _ _ a _ _ => a

/-- Field `self.select_stores`. -/
def Store.select_stores : Store → List (String × Store)
  | .mk _ _ _ _ sel _ => sel

/-- Field `self.prefetch_stores`. -/
def Store.prefetch_stores : Store → List (String × Store)
  | .mk _ _ _ _ _ pre => pre

mutual

/-- Django `QuerySet`, modelled as the chain of instructions the optimizer
applied on top of a base manager queryset. -/
inductive QuerySet where
  | base (model : Nat)
  | filter_pk (qs : QuerySet) (pk : Nat)
  | hook_filtered (qs : QuerySet)
  | prefetch_related (qs : QuerySet) (ps : List Prefetch)
  | select_related (qs : QuerySet) (fields : List String)
  | only (qs : QuerySet) (fields : List String)
  | annotate (qs : QuerySet) (anns : List (String × Expr))
  | mark_optimized (qs : QuerySet)

/-- `django.db.models.Prefetch(lookup, queryset)`: the relation path it
fetches (`prefetch_to`) and the queryset used to fetch it. -/
inductive Prefetch where
  | mk (prefetch_to : String) (queryset : QuerySet)

end

/-- Field `prefetch_to` of a `Prefetch`. -/
def Prefetch.prefetch_to : Prefetch → String
  | .mk t _ => t

/-- `Prefetch.add_prefix(name)` (Django): re-qualifies the prefetch path by
prefixing `name + LOOKUP_SEP`. -/
def Prefetch.addPrefix : Prefetch → String → Prefetch
  | .mk t qs, name => .mk (name ++ LOOKUP_SEP ++ t) qs

/-- `CompilationResults` (store.py line 25). -/
structure CompilationResults where
  only_fields : List String := []
  select_related : List String := []
  prefetch_related : List Prefetch := []

/-- Component-wise append of two `CompilationResults`. -/
def CompilationResults.app (r1 r2 : CompilationResults) : CompilationResults :=
  { only_fields := r1.only_fields ++ r2.only_fields
    select_related := r1.select_related ++ r2.select_related
    prefetch_related := r1.prefetch_related ++ r2.prefetch_related }

/-- `get_prefetch_queryset` (store.py line 92): `model._default_manager.all()`. -/
def get_prefetch_queryset (model : Nat) : QuerySet :=
  QuerySet.base model

/-- `get_filtered_queryset` (store.py line 95): delegates to the external
per-entity-type `filter_queryset` hook (or passes through); recorded as a
marker instruction on the handle. -/
def get_filtered_queryset (queryset : QuerySet) : QuerySet :=
  QuerySet.hook_filtered queryset

-- Size measure for the nested `Store` tree (termination measure only).
mutual

def Store.size : Store → Nat
  | .mk _ _ _ _ sel pre => storesSize sel + storesSize pre + 1

def storesSize : List (String × Store) → Nat
  | [] => 0
  | (_, s) :: rest => Store.size s + storesSize rest + 1

end

mutual

/-- `QueryOptimizerStore.compile` (store.py line 63): compiles the node into
`CompilationResults`, promoting `select_stores` children that carry
annotations into prefetches. `dis` is the global settings flag
`optimizer_settings.DISABLE_ONLY_FIELDS_OPTIMIZATION` threaded through. -/
def Store.compile (dis : Bool) : Store → CompilationResults
  | .mk _ o _ _ sel pre =>
      let results : CompilationResults := { only_fields := o }
      let results := compileSelects dis sel results
      compilePrefetches dis pre results
termination_by s => 3 * s.size
decreasing_by all_goals (simp [Store.size, storesSize] <;> omega)

/-- The `for name, store in self.select_stores.items()` loop of `compile`:
promote select related to prefetch related if any annotations are needed. -/
def compileSelects (dis : Bool) : List (String × Store) → CompilationResults → CompilationResults
  | [], results => results
  | (name, store) :: rest, results =>
      let results :=
        if store.annotations ≠ [] then compile_prefetch dis name store results
        else compile_select dis name store results
      compileSelects dis rest results
termination_by l results => 3 * storesSize l + 2
decreasing_by all_goals (simp [Store.size, storesSize] <;> omega)

/-- The `for name, store in self.prefetch_stores.items()` loop of `compile`. -/
def compilePrefetches (dis : Bool) : List (String × Store) → CompilationResults → CompilationResults
  | [], results => results
  | (name, store) :: rest, results =>
      compilePrefetches dis rest (compile_prefetch dis name store results)
termination_by l results => 3 * storesSize l + 2
decreasing_by all_goals (simp [Store.size, storesSize] <;> omega)

/-- `QueryOptimizerStore.compile_select` (store.py line 78). -/
def compile_select (dis : Bool) (name : String) (store : Store)
    (results : CompilationResults) : CompilationResults :=
  let results := { results with select_related := results.select_related ++ [name] }
  let nested_results := store.compile dis
  let results := { results with
    only_fields := results.only_fields ++
      nested_results.only_fields.map (fun o => name ++ LOOKUP_SEP ++ o) }
  let results := { results with
    select_related := results.select_related ++
      nested_results.select_related.map (fun s => name ++ LOOKUP_SEP ++ s) }
  { results with
    prefetch_related := results.prefetch_related ++
      nested_results.prefetch_related.map (fun p => p.addPrefix name) }
termination_by 3 * store.size + 1
decreasing_by all_goals (simp [Store.size, storesSize] <;> omega)

/-- `QueryOptimizerStore.compile_prefetch` (store.py line 87). -/
def compile_prefetch (dis : Bool) (name : String) (store : Store)
    (results : CompilationResults) : CompilationResults :=
  let queryset := get_prefetch_queryset store.model
  let optimized_queryset := store.optimize_queryset dis queryset none
  { results with
    prefetch_related := results.prefetch_related ++ [Prefetch.mk name optimized_queryset] }
termination_by 3 * store.size + 2
decreasing_by all_goals (simp [Store.size, storesSize] <;> omega)

/-- `QueryOptimizerStore.optimize_queryset` (store.py line 44). -/
def Store.optimize_queryset (dis : Bool) (s : Store) (queryset : QuerySet)
    (pk : Option Nat) : QuerySet :=
  let results := s.compile dis
  let queryset := match pk with
    | some k => QuerySet.filter_pk queryset k
    | none => queryset
  let queryset := get_filtered_queryset queryset
  let queryset :=
    if results.prefetch_related.isEmpty then queryset
    else QuerySet.prefetch_related queryset results.prefetch_related
  let queryset :=
    if results.select_related ≠ [] then QuerySet.select_related queryset results.select_related
    else queryset
  let queryset :=
    if dis = false ∧ (results.only_fields ≠ [] ∨ s.related_fields ≠ []) then
      QuerySet.only queryset (results.only_fields ++ s.related_fields)
    else queryset
  let queryset :=
    if s.annotations ≠ [] then QuerySet.annotate queryset s.annotations
    else queryset
  QuerySet.mark_optimized queryset
termination_by 3 * s.size + 1
decreasing_by all_goals (simp [Store.size, storesSize] <;> omega)

end

-- `QueryOptimizerStore.complexity` (store.py line 101): sum of children's
-- complexities plus the number of direct children in either bucket.
mutual

def Store.complexity : Store → Nat
  | .mk _ _ _ _ sel pre =>
      complexitySum sel + complexitySum pre + sel.length + pre.length

def complexitySum : List (String × Store) → Nat
  | [] => 0
  | (_, store) :: rest => Store.complexity store + complexitySum rest

end

/-- Python `dict.__setitem__`: replace the value of an existing key in
place, else append the new key at the end. -/
def dictSet {α : Type} (d : List (String × α)) (k : String) (v : α) : List (String × α) :=
  if k ∈ d.map Prod.fst then d.map (fun p => if p.1 = k then (k, v) else p)
  else d ++ [(k, v)]

/-- Python `dict.update(other)`: set every key of `other`, in order. -/
def dictUpdate {α : Type} (d : List (String × α)) : List (String × α) → List (String × α)
  | [] => d
  | (k, v) :: rest => dictUpdate (dictSet d k v) rest

/-- `QueryOptimizerStore.__add__` (store.py line 110): extends the left
operand's field lists with the right's, and `dict.update`s the annotation
and child maps; the result keeps the left operand's model. -/
def Store.add : Store → Store → Store
  | .mk m o r a sel pre, .mk _ o2 r2 a2 sel2 pre2 =>
      .mk m (o ++ o2) (r ++ r2) (dictUpdate a a2) (dictUpdate sel sel2) (dictUpdate pre pre2)

/-- The child of the C1 witness: one annotated relation under the root. -/
def C1child : Store := Store.mk 1 ["c"] [] [("cnt", "expr1")] [] []

/-- The root of the C1 witness. -/
def C1root : Store := Store.mk 0 ["id"] [] [] [("r", C1child)] []

/-- Level-two node of the C4 witness. -/
def C4b : Store := Store.mk 2 ["x"] [] [] [] []

/-- Level-one node of the C4 witness. -/
def C4a : Store := Store.mk 1 [] [] [] [("B", C4b)] []

/-- Root node of the C4 witness. -/
def C4root : Store := Store.mk 0 [] [] [] [("A", C4a)] []

/-- Whether a column-restriction (`.only(...)`) instruction occurs in the
chain of instructions applied to this queryset handle. -/
def QuerySet.hasOnly : QuerySet → Bool
  | .base _ => false
  | .filter_pk qs _ => qs.hasOnly
  | .hook_filtered qs => qs.hasOnly
  | .prefetch_related qs _ => qs.hasOnly
  | .select_related qs _ => qs.hasOnly
  | .only _ _ => true
  | .annotate qs _ => qs.hasOnly
  | .mark_optimized qs => qs.hasOnly

/-- The store used by the C7 witness. -/
def C7s : Store := Store.mk 0 ["id"] [] [] [] []

/-- Association-list lookup with Python `dict` access semantics. -/
def alookup {α : Type} (k : String) : List (String × α) → Option α
  | [] => none
  | (k0, v) :: rest => if k = k0 then some v else alookup k rest

/-- A-side child of the C3 counterexample. -/
def C3childA : Store := Store.mk 1 ["a"] [] [] [] []

/-- B-side child of the C3 counterexample. -/
def C3childB : Store := Store.mk 1 ["b"] [] [] [] []

/-- Left operand of the C3 counterexample. -/
def C3A : Store := Store.mk 0 [] [] [] [("r", C3childA)] []

/-- Right operand of the C3 counterexample. -/
def C3B : Store := Store.mk 0 [] [] [] [("r", C3childB)] []

/-- Left node of the C6 witness. -/
def C6A : Store := Store.mk 0 ["a"] ["fa"] [] [("ra", Store.mk 1 [] [] [] [] [])] []

/-- Right node of the C6 witness. -/
def C6B : Store := Store.mk 0 ["b"] ["fb"] [] [("rb", Store.mk 2 [] [] [] [] [])] []

/-- Left operand of the C8 counterexample (entity type 0). -/
def C8A : Store := Store.mk 0 ["a"] [] [] [] []

/-- Right operand of the C8 counterexample (entity type 1). -/
def C8B : Store := Store.mk 1 ["b"] [] [] [] []

/-- Modelled from the spec: the external selection-tree walker's
`addColumn(name)` and `addSupportColumn(name)` mutations (spec §4.1), which
are not part of this repository's files. Per the spec they are "pure
additive mutations; idempotent for repeated identical input" on the ordered
sets `directColumns` (`only_fields`) and `supportColumns`
(`related_fields`), in which "duplicates collapse". -/
inductive StoreOp where
  | addColumn (name : String)
  | addSupportColumn (name : String)

/-- Insert at the end unless already present (ordered-set insertion). -/
def insertNew (l : List String) (n : String) : List String :=
  if n ∈ l then l else l ++ [n]

/-- Fold `insertNew` over a list of names. -/
def insertAll (l : List String) : List String → List String
  | [] => l
  | n :: rest => insertAll (insertNew l n) rest

/-- Apply one walker mutation to a store (see `StoreOp`). -/
def Store.applyOp : Store → StoreOp → Store
  | .mk m o r a sel pre, .addColumn n => .mk m (insertNew o n) r a sel pre
  | .mk m o r a sel pre, .addSupportColumn n => .mk m o (insertNew r n) a sel pre

/-- Apply a sequence of walker mutations in order. -/
def Store.applyOps (s : Store) : List StoreOp → Store
  | [] => s
  | op :: rest => Store.applyOps (s.applyOp op) rest

/-- The direct-column names added by a sequence of mutations, in order. -/
def colNames : List StoreOp → List String
  | [] => []
  | .addColumn n :: rest => n :: colNames rest
  | .addSupportColumn _ :: rest => colNames rest

/-- The support-column names added by a sequence of mutations, in order. -/
def supNames : List StoreOp → List String
  | [] => []
  | .addColumn _ :: rest => supNames rest
  | .addSupportColumn n :: rest => n :: supNames rest

/-- Python reference semantics of `__add__` (store.py line 110): the store
objects live on a heap of addresses; `self.only_fields += ...`,
`self.annotations.update(...)` etc. update the object at `self`'s address
in place, `other`'s object is only read, and `return self` returns `self`'s
own address. `heapAdd h ia ib` is the resulting heap paired with the
returned address. -/
def heapAdd (h : Nat → Store) (ia ib : Nat) : (Nat → Store) × Nat :=
  (fun j => if j = ia then Store.add (h ia) (h ib) else h j, ia)

/-- The heap of the C10 witness: address 0 holds `C3A`, every other address
holds `C3B`. -/
def C10heap : Nat → Store := fun j => if j = 0 then C3A else C3B

/-! ## Decomposition of the compile loops

Each loop step of `compile` only ever appends to the accumulated
`CompilationResults`, and what it appends does not depend on the
accumulator. -/

theorem CompilationResults.app_empty (r : CompilationResults) :
    r.app ⟨[], [], []⟩ = r := by
  simp [CompilationResults.app]

theorem CompilationResults.empty_app (r : CompilationResults) :
    CompilationResults.app ⟨[], [], []⟩ r = r := by
  simp [CompilationResults.app]

theorem CompilationResults.app_assoc (r1 r2 r3 : CompilationResults) :
    (r1.app r2).app r3 = r1.app (r2.app r3) := by
  simp [CompilationResults.app]

theorem compile_select_app (dis : Bool) (name : String) (store : Store)
    (results : CompilationResults) :
    compile_select dis name store results =
      results.app (compile_select dis name store ⟨[], [], []⟩) := by
  simp [compile_select, CompilationResults.app]

theorem compile_prefetch_app (dis : Bool) (name : String) (store : Store)
    (results : CompilationResults) :
    compile_prefetch dis name store results =
      results.app (compile_prefetch dis name store ⟨[], [], []⟩) := by
  simp [compile_prefetch, CompilationResults.app]

theorem compileSelects_app (dis : Bool) (l : List (String × Store))
    (results : CompilationResults) :
    compileSelects dis l results =
      results.app (compileSelects dis l ⟨[], [], []⟩) := by
  induction l generalizing results with
  | nil => rw [compileSelects, compileSelects, CompilationResults.app_empty]
  | cons hd rest ih =>
    obtain ⟨name, store⟩ := hd
    rw [compileSelects, compileSelects]
    by_cases h : store.annotations ≠ []
    · rw [if_pos h, if_pos h]
      rw [ih, compile_prefetch_app, ih (compile_prefetch dis name store ⟨[], [], []⟩),
        CompilationResults.app_assoc]
    · rw [if_neg h, if_neg h]
      rw [ih, compile_select_app, ih (compile_select dis name store ⟨[], [], []⟩),
        CompilationResults.app_assoc]

theorem compilePrefetches_app (dis : Bool) (l : List (String × Store))
    (results : CompilationResults) :
    compilePrefetches dis l results =
      results.app (compilePrefetches dis l ⟨[], [], []⟩) := by
  induction l generalizing results with
  | nil => rw [compilePrefetches, compilePrefetches, CompilationResults.app_empty]
  | cons hd rest ih =>
    obtain ⟨name, store⟩ := hd
    rw [compilePrefetches, compilePrefetches]
    rw [ih, compile_prefetch_app, ih (compile_prefetch dis name store ⟨[], [], []⟩),
      CompilationResults.app_assoc]

/-- `compile` decomposed: the node's own `only_fields`, then the
contributions of the `select_stores` loop, then those of the
`prefetch_stores` loop. -/
theorem Store.compile_eq (dis : Bool) (s : Store) :
    s.compile dis =
      CompilationResults.app ⟨s.only_fields, [], []⟩
        ((compileSelects dis s.select_stores ⟨[], [], []⟩).app
          (compilePrefetches dis s.prefetch_stores ⟨[], [], []⟩)) := by
  obtain ⟨m, o, r, a, sel, pre⟩ := s
  rw [Store.compile]
  rw [compileSelects_app, compilePrefetches_app, CompilationResults.app_assoc]
  rfl

/-- The prefetch loop contributes nothing to `only_fields` or
`select_related`. -/
theorem compilePrefetches_only_select (dis : Bool) (l : List (String × Store))
    (results : CompilationResults) :
    (compilePrefetches dis l results).only_fields = results.only_fields ∧
      (compilePrefetches dis l results).select_related = results.select_related := by
  induction l generalizing results with
  | nil => rw [compilePrefetches]; exact ⟨rfl, rfl⟩
  | cons hd rest ih =>
    obtain ⟨name, store⟩ := hd
    rw [compilePrefetches]
    rcases ih (compile_prefetch dis name store results) with ⟨h1, h2⟩
    rw [h1, h2]
    constructor <;> simp [compile_prefetch]

theorem CompilationResults.app_only (r1 r2 : CompilationResults) :
    (r1.app r2).only_fields = r1.only_fields ++ r2.only_fields := rfl

theorem CompilationResults.app_sel (r1 r2 : CompilationResults) :
    (r1.app r2).select_related = r1.select_related ++ r2.select_related := rfl

theorem CompilationResults.app_pre (r1 r2 : CompilationResults) :
    (r1.app r2).prefetch_related = r1.prefetch_related ++ r2.prefetch_related := rfl

theorem compile_select_empty_only (dis : Bool) (name : String) (store : Store) :
    (compile_select dis name store ⟨[], [], []⟩).only_fields =
      (store.compile dis).only_fields.map (fun o => name ++ LOOKUP_SEP ++ o) := by
  simp [compile_select]

theorem compile_select_empty_sel (dis : Bool) (name : String) (store : Store) :
    (compile_select dis name store ⟨[], [], []⟩).select_related =
      name :: (store.compile dis).select_related.map (fun s => name ++ LOOKUP_SEP ++ s) := by
  simp [compile_select]

theorem compile_select_empty_pre (dis : Bool) (name : String) (store : Store) :
    (compile_select dis name store ⟨[], [], []⟩).prefetch_related =
      (store.compile dis).prefetch_related.map (fun p => p.addPrefix name) := by
  simp [compile_select]

theorem compile_prefetch_empty_only (dis : Bool) (name : String) (store : Store) :
    (compile_prefetch dis name store ⟨[], [], []⟩).only_fields = [] := by
  simp [compile_prefetch]

theorem compile_prefetch_empty_sel (dis : Bool) (name : String) (store : Store) :
    (compile_prefetch dis name store ⟨[], [], []⟩).select_related = [] := by
  simp [compile_prefetch]

theorem compile_prefetch_empty_pre (dis : Bool) (name : String) (store : Store) :
    (compile_prefetch dis name store ⟨[], [], []⟩).prefetch_related =
      [Prefetch.mk name
        (store.optimize_queryset dis (get_prefetch_queryset store.model) none)] := by
  simp [compile_prefetch]

/-- Membership in the `select_related` produced by the `select_stores` loop:
exactly the un-annotated children's names and their qualified nested join
paths. -/
theorem mem_compileSelects_sel (dis : Bool) (l : List (String × Store)) (x : String) :
    x ∈ (compileSelects dis l ⟨[], [], []⟩).select_related ↔
      ∃ n st, (n, st) ∈ l ∧ st.annotations = [] ∧
        (x = n ∨ ∃ y ∈ (st.compile dis).select_related, x = n ++ LOOKUP_SEP ++ y) := by
  induction l with
  | nil => rw [compileSelects]; simp
  | cons hd rest ih =>
    obtain ⟨n0, st0⟩ := hd
    rw [compileSelects, compileSelects_app]
    by_cases h : st0.annotations ≠ []
    · rw [if_pos h]
      rw [CompilationResults.app_sel, compile_prefetch_empty_sel, List.nil_append, ih]
      constructor
      · rintro ⟨n, st, hmem, ha, hx⟩
        exact ⟨n, st, List.mem_cons_of_mem _ hmem, ha, hx⟩
      · rintro ⟨n, st, hmem, ha, hx⟩
        rcases List.mem_cons.mp hmem with heq | hmem
        · rw [Prod.mk.injEq] at heq
          exact absurd (heq.2 ▸ ha) h
        · exact ⟨n, st, hmem, ha, hx⟩
    · rw [if_neg h]
      rw [Ne, not_not] at h
      rw [CompilationResults.app_sel, compile_select_empty_sel]
      constructor
      · intro hx
        rcases List.mem_cons.mp hx with hx | hx
        · exact ⟨n0, st0, List.mem_cons_self _ _, h, Or.inl hx⟩
        rcases List.mem_append.mp hx with hx | hx
        · rcases List.mem_map.mp hx with ⟨y, hy, hxy⟩
          exact ⟨n0, st0, List.mem_cons_self _ _, h, Or.inr ⟨y, hy, hxy.symm⟩⟩
        · rcases ih.mp hx with ⟨n, st, hmem, ha, hx⟩
          exact ⟨n, st, List.mem_cons_of_mem _ hmem, ha, hx⟩
      · rintro ⟨n, st, hmem, ha, hx⟩
        rcases List.mem_cons.mp hmem with heq | hmem
        · rw [Prod.mk.injEq] at heq
          obtain ⟨hn, hst⟩ := heq
          subst hn hst
          rcases hx with hx | ⟨y, hy, hxy⟩
          · exact List.mem_cons.mpr (Or.inl hx)
          · exact List.mem_cons.mpr
              (Or.inr (List.mem_append.mpr (Or.inl (List.mem_map.mpr ⟨y, hy, hxy.symm⟩))))
        · exact List.mem_cons.mpr
            (Or.inr (List.mem_append.mpr (Or.inr (ih.mpr ⟨n, st, hmem, ha, hx⟩))))

/-- Membership in the `only_fields` produced by the `select_stores` loop:
exactly the un-annotated children's qualified nested columns. -/
theorem mem_compileSelects_only (dis : Bool) (l : List (String × Store)) (x : String) :
    x ∈ (compileSelects dis l ⟨[], [], []⟩).only_fields ↔
      ∃ n st, (n, st) ∈ l ∧ st.annotations = [] ∧
        ∃ y ∈ (st.compile dis).only_fields, x = n ++ LOOKUP_SEP ++ y := by
  induction l with
  | nil => rw [compileSelects]; simp
  | cons hd rest ih =>
    obtain ⟨n0, st0⟩ := hd
    rw [compileSelects, compileSelects_app]
    by_cases h : st0.annotations ≠ []
    · rw [if_pos h]
      rw [CompilationResults.app_only, compile_prefetch_empty_only, List.nil_append, ih]
      constructor
      · rintro ⟨n, st, hmem, ha, hx⟩
        exact ⟨n, st, List.mem_cons_of_mem _ hmem, ha, hx⟩
      · rintro ⟨n, st, hmem, ha, hx⟩
        rcases List.mem_cons.mp hmem with heq | hmem
        · rw [Prod.mk.injEq] at heq
          exact absurd (heq.2 ▸ ha) h
        · exact ⟨n, st, hmem, ha, hx⟩
    · rw [if_neg h]
      rw [Ne, not_not] at h
      rw [CompilationResults.app_only, compile_select_empty_only]
      constructor
      · intro hx
        rcases List.mem_append.mp hx with hx | hx
        · rcases List.mem_map.mp hx with ⟨y, hy, hxy⟩
          exact ⟨n0, st0, List.mem_cons_self _ _, h, y, hy, hxy.symm⟩
        · rcases ih.mp hx with ⟨n, st, hmem, ha, hx⟩
          exact ⟨n, st, List.mem_cons_of_mem _ hmem, ha, hx⟩
      · rintro ⟨n, st, hmem, ha, y, hy, hxy⟩
        rcases List.mem_cons.mp hmem with heq | hmem
        · rw [Prod.mk.injEq] at heq
          obtain ⟨hn, hst⟩ := heq
          subst hn hst
          exact List.mem_append.mpr (Or.inl (List.mem_map.mpr ⟨y, hy, hxy.symm⟩))
        · exact List.mem_append.mpr (Or.inr (ih.mpr ⟨n, st, hmem, ha, y, hy, hxy⟩))

/-- A `select_stores` child with annotations contributes a `Prefetch` under
its own (unqualified) relation name. -/
theorem compileSelects_pre_exists (dis : Bool) (l : List (String × Store))
    (n : String) (st : Store) (hmem : (n, st) ∈ l) (ha : st.annotations ≠ []) :
    ∃ p ∈ (compileSelects dis l ⟨[], [], []⟩).prefetch_related, p.prefetch_to = n := by
  induction l with
  | nil => cases hmem
  | cons hd rest ih =>
    obtain ⟨n0, st0⟩ := hd
    rw [compileSelects, compileSelects_app, CompilationResults.app_pre]
    rcases List.mem_cons.mp hmem with heq | hmem
    · rw [Prod.mk.injEq] at heq
      obtain ⟨hn, hst⟩ := heq
      subst hn hst
      rw [if_pos ha, compile_prefetch_empty_pre]
      exact ⟨_, List.mem_append.mpr (Or.inl (List.mem_singleton.mpr rfl)), rfl⟩
    · rcases ih hmem with ⟨p, hp, hpt⟩
      exact ⟨p, List.mem_append.mpr (Or.inr hp), hpt⟩

/-- `compile`'s `select_related` comes entirely from the `select_stores`
loop. -/
theorem Store.compile_sel (dis : Bool) (s : Store) :
    (s.compile dis).select_related =
      (compileSelects dis s.select_stores ⟨[], [], []⟩).select_related := by
  rw [Store.compile_eq, CompilationResults.app_sel, CompilationResults.app_sel,
    (compilePrefetches_only_select dis s.prefetch_stores ⟨[], [], []⟩).2]
  simp

/-- `compile`'s `only_fields` is the node's own list followed by the
qualified nested columns of the un-annotated `select_stores` children. -/
theorem Store.compile_only (dis : Bool) (s : Store) :
    (s.compile dis).only_fields =
      s.only_fields ++ (compileSelects dis s.select_stores ⟨[], [], []⟩).only_fields := by
  rw [Store.compile_eq, CompilationResults.app_only, CompilationResults.app_only,
    (compilePrefetches_only_select dis s.prefetch_stores ⟨[], [], []⟩).1]
  simp

/-- `compile`'s `prefetch_related` is the `select_stores` loop's prefetches
(promotions and prefixed nested ones) followed by the `prefetch_stores`
loop's. -/
theorem Store.compile_pre (dis : Bool) (s : Store) :
    (s.compile dis).prefetch_related =
      (compileSelects dis s.select_stores ⟨[], [], []⟩).prefetch_related ++
        (compilePrefetches dis s.prefetch_stores ⟨[], [], []⟩).prefetch_related := by
  rw [Store.compile_eq, CompilationResults.app_pre, CompilationResults.app_pre]
  simp

/-- In a list with no duplicate keys, a key determines its value. -/
theorem nodup_keys_eq {α : Type} {l : List (String × α)}
    (h : (l.map Prod.fst).Nodup) {k : String} {v1 v2 : α}
    (h1 : (k, v1) ∈ l) (h2 : (k, v2) ∈ l) : v1 = v2 := by
  induction l with
  | nil => cases h1
  | cons hd rest ih =>
    obtain ⟨k0, v0⟩ := hd
    rw [List.map_cons, List.nodup_cons] at h
    rcases List.mem_cons.mp h1 with e1 | m1 <;> rcases List.mem_cons.mp h2 with e2 | m2
    · rw [Prod.mk.injEq] at e1 e2
      rw [e1.2, e2.2]
    · rw [Prod.mk.injEq] at e1
      exact absurd (List.mem_map.mpr ⟨(k, v2), m2, (e1.1 : (k, v2).1 = k0)⟩) h.1
    · rw [Prod.mk.injEq] at e2
      exact absurd (List.mem_map.mpr ⟨(k, v1), m1, (e2.1 : (k, v1).1 = k0)⟩) h.1
    · exact ih h.2 m1 m2

/-! ## The claims -/

/-- C1 (promotion correctness): a `select_stores` child with a non-empty
`annotations` mapping is promoted at compile time: the relation's name heads
a `Prefetch` in the compiled `prefetch_related` and does not occur in
`select_related`. `hnd` says the map's keys are unique (a Python `dict`
invariant); `hsep` says the relation name is not itself a `LOOKUP_SEP`
composite (Django forbids `__` in field names). -/
theorem promotion_to_prefetch (dis : Bool) (s : Store) (name : String) (child : Store)
    (hmem : (name, child) ∈ s.select_stores)
    (ha : child.annotations ≠ [])
    (hnd : (s.select_stores.map Prod.fst).Nodup)
    (hsep : ∀ u v : String, name ≠ u ++ LOOKUP_SEP ++ v) :
    (∃ p ∈ (s.compile dis).prefetch_related, p.prefetch_to = name) ∧
      name ∉ (s.compile dis).select_related := by
  constructor
  · rw [Store.compile_pre]
    obtain ⟨p, hp, hpt⟩ := compileSelects_pre_exists dis s.select_stores name child hmem ha
    exact ⟨p, List.mem_append.mpr (Or.inl hp), hpt⟩
  · rw [Store.compile_sel]
    intro hcontra
    rcases (mem_compileSelects_sel dis _ name).mp hcontra with ⟨n, st, hmem2, ha2, hx⟩
    rcases hx with rfl | ⟨y, _, hxy⟩
    · exact ha ((nodup_keys_eq hnd hmem2 hmem) ▸ ha2)
    · exact hsep _ _ hxy

theorem promotion_to_prefetch_witness :
    (∃ p ∈ (C1root.compile false).prefetch_related, p.prefetch_to = "r") ∧
      "r" ∉ (C1root.compile false).select_related :=
  promotion_to_prefetch false C1root "r" C1child
    (List.mem_singleton.mpr rfl)
    (by decide)
    (by decide)
    (by
      intro u v h
      have hl := congrArg String.length h
      rw [String.length_append, String.length_append] at hl
      have h1 : String.length "r" = 1 := rfl
      have h2 : String.length LOOKUP_SEP = 2 := rfl
      omega)

/-- C4 (path qualification): in a two-level join chain root→A→B with no
annotations on A or B and a column `x` on B, the root's compiled columns
contain `A__B__x` and its join paths contain both `A` and `A__B`. -/
theorem path_qualification (dis : Bool) (root a b : Store) (nA nB x : String)
    (hA : (nA, a) ∈ root.select_stores) (haA : a.annotations = [])
    (hB : (nB, b) ∈ a.select_stores) (haB : b.annotations = [])
    (hx : x ∈ b.only_fields) :
    nA ++ LOOKUP_SEP ++ nB ++ LOOKUP_SEP ++ x ∈ (root.compile dis).only_fields ∧
      nA ∈ (root.compile dis).select_related ∧
      nA ++ LOOKUP_SEP ++ nB ∈ (root.compile dis).select_related := by
  have hxb : x ∈ (b.compile dis).only_fields := by
    rw [Store.compile_only]
    exact List.mem_append.mpr (Or.inl hx)
  have hxa : nB ++ LOOKUP_SEP ++ x ∈ (a.compile dis).only_fields := by
    rw [Store.compile_only]
    exact List.mem_append.mpr (Or.inr
      ((mem_compileSelects_only dis _ _).mpr ⟨nB, b, hB, haB, x, hxb, rfl⟩))
  refine ⟨?_, ?_, ?_⟩
  · have hm : nA ++ LOOKUP_SEP ++ (nB ++ LOOKUP_SEP ++ x) ∈ (root.compile dis).only_fields := by
      rw [Store.compile_only]
      exact List.mem_append.mpr (Or.inr
        ((mem_compileSelects_only dis _ _).mpr ⟨nA, a, hA, haA, _, hxa, rfl⟩))
    have heq : nA ++ LOOKUP_SEP ++ nB ++ LOOKUP_SEP ++ x =
        nA ++ LOOKUP_SEP ++ (nB ++ LOOKUP_SEP ++ x) := by
      simp [String.append_assoc]
    rw [heq]
    exact hm
  · rw [Store.compile_sel]
    exact (mem_compileSelects_sel dis _ _).mpr ⟨nA, a, hA, haA, Or.inl rfl⟩
  · have hselA : nB ∈ (a.compile dis).select_related := by
      rw [Store.compile_sel]
      exact (mem_compileSelects_sel dis _ _).mpr ⟨nB, b, hB, haB, Or.inl rfl⟩
    rw [Store.compile_sel]
    exact (mem_compileSelects_sel dis _ _).mpr ⟨nA, a, hA, haA, Or.inr ⟨nB, hselA, rfl⟩⟩

theorem path_qualification_witness :
    ("A" : String) ++ LOOKUP_SEP ++ "B" ++ LOOKUP_SEP ++ "x" ∈ (C4root.compile false).only_fields ∧
      ("A" : String) ∈ (C4root.compile false).select_related ∧
      ("A" : String) ++ LOOKUP_SEP ++ "B" ∈ (C4root.compile false).select_related :=
  path_qualification false C4root C4a C4b "A" "B" "x"
    (List.mem_singleton.mpr rfl) (by decide)
    (List.mem_singleton.mpr rfl) (by decide)
    (by decide)

/-- C2 counterexample: `compile` performs no deduplication. A node whose own
column list repeats `"a"` compiles to a columns list that still repeats
`"a"`. -/
theorem compile_columns_dup_counterexample :
    (Store.compile false (Store.mk 0 ["a", "a"] [] [] [] [])).only_fields = ["a", "a"] ∧
      ¬ (Store.compile false (Store.mk 0 ["a", "a"] [] [] [] [])).only_fields.Nodup := by
  have h : (Store.compile false (Store.mk 0 ["a", "a"] [] [] [] [])).only_fields = ["a", "a"] := by
    rw [Store.compile_only]
    simp only [Store.only_fields, Store.select_stores]
    rw [compileSelects]
    simp
  exact ⟨h, by rw [h]; decide⟩

/-- C2 amended: `compile` does not deduplicate `columns`; the compiled
columns list is exactly the node's own column list (duplicates and
positions preserved) followed by the qualified nested columns contributed
by the un-annotated joined children, in loop order. -/
theorem compile_columns_no_dedup (dis : Bool) (s : Store) :
    (s.compile dis).only_fields =
      s.only_fields ++ (compileSelects dis s.select_stores ⟨[], [], []⟩).only_fields :=
  Store.compile_only dis s

/-- `complexitySum` is the sum of the children's complexities. -/
theorem complexitySum_eq (l : List (String × Store)) :
    complexitySum l = (l.map (fun p => Store.complexity p.2)).sum := by
  induction l with
  | nil => rw [complexitySum]; simp
  | cons hd rest ih =>
    obtain ⟨n, st⟩ := hd
    rw [complexitySum]
    simp [ih]

/-- C5 (complexity additivity): a node's complexity is the number of its
direct child relations (both buckets) plus the sum of the children's
complexities; in particular a node with two join children and one follow-up
child, all of complexity 0, has complexity 3. -/
theorem complexity_additive :
    (∀ s : Store,
      Store.complexity s =
        ((s.select_stores.map (fun p => Store.complexity p.2)).sum +
          (s.prefetch_stores.map (fun p => Store.complexity p.2)).sum) +
          (s.select_stores.length + s.prefetch_stores.length)) ∧
    Store.complexity (Store.mk 0 [] [] [] [] []) = 0 ∧
    Store.complexity
      (Store.mk 0 [] [] [] [("j1", Store.mk 0 [] [] [] [] []), ("j2", Store.mk 0 [] [] [] [] [])]
        [("f1", Store.mk 0 [] [] [] [] [])]) = 3 := by
  refine ⟨?_, ?_, ?_⟩
  · intro s
    obtain ⟨m, o, r, a, sel, pre⟩ := s
    rw [Store.complexity]
    simp only [Store.select_stores, Store.prefetch_stores, complexitySum_eq]
    omega
  · simp [Store.complexity, complexitySum]
  · simp [Store.complexity, complexitySum]

/-- C7 (column restriction condition): starting from a handle with no
column restriction, `optimize_queryset` applies a `.only(...)` instruction
iff the `DISABLE_ONLY_FIELDS_OPTIMIZATION` flag is unset and the compiled
`only_fields` or the node's `related_fields` is non-empty; with both empty
no restriction is applied. -/
theorem only_restriction_iff (dis : Bool) (s : Store) (qs : QuerySet) (pk : Option Nat)
    (h : qs.hasOnly = false) :
    ((s.optimize_queryset dis qs pk).hasOnly = true ↔
      (dis = false ∧ ((s.compile dis).only_fields ≠ [] ∨ s.related_fields ≠ []))) := by
  rw [Store.optimize_queryset.eq_def]
  simp only [get_filtered_queryset]
  cases dis <;> cases pk <;> split_ifs <;> simp_all [QuerySet.hasOnly]

theorem only_restriction_iff_witness :
    ((C7s.optimize_queryset false (QuerySet.base 0) none).hasOnly = true ↔
      (false = false ∧ ((C7s.compile false).only_fields ≠ [] ∨ C7s.related_fields ≠ []))) :=
  only_restriction_iff false C7s (QuerySet.base 0) none rfl

theorem alookup_map_replace_mem {α : Type} (d : List (String × α)) (k : String) (v : α)
    (hmem : k ∈ d.map Prod.fst) :
    alookup k (d.map (fun p => if p.1 = k then (k, v) else p)) = some v := by
  induction d with
  | nil => cases hmem
  | cons hd rest ih =>
    obtain ⟨k0, v0⟩ := hd
    rw [List.map_cons]
    by_cases hk : k0 = k
    · have hhd : (if ((k0, v0) : String × α).1 = k then (k, v) else (k0, v0)) = (k, v) := by
        simp [hk]
      rw [hhd, alookup, if_pos rfl]
    · have hhd : (if ((k0, v0) : String × α).1 = k then (k, v) else (k0, v0)) = (k0, v0) := by
        simp [hk]
      rw [hhd, alookup, if_neg (fun he => hk he.symm)]
      refine ih ?_
      rcases List.mem_cons.mp hmem with h | h
      · exact absurd h.symm hk
      · exact h

theorem alookup_map_replace_ne {α : Type} (d : List (String × α)) (k k' : String) (v : α)
    (h : k' ≠ k) :
    alookup k' (d.map (fun p => if p.1 = k then (k, v) else p)) = alookup k' d := by
  induction d with
  | nil => rfl
  | cons hd rest ih =>
    obtain ⟨k0, v0⟩ := hd
    rw [List.map_cons]
    by_cases hk : k0 = k
    · have hhd : (if ((k0, v0) : String × α).1 = k then (k, v) else (k0, v0)) = (k, v) := by
        simp [hk]
      rw [hhd, alookup, alookup, if_neg h, if_neg (fun he => h (hk ▸ he))]
      exact ih
    · have hhd : (if ((k0, v0) : String × α).1 = k then (k, v) else (k0, v0)) = (k0, v0) := by
        simp [hk]
      rw [hhd, alookup, alookup]
      by_cases hk' : k' = k0
      · rw [if_pos hk', if_pos hk']
      · rw [if_neg hk', if_neg hk']
        exact ih

theorem alookup_append_not_mem {α : Type} (d : List (String × α)) (k : String)
    (tail : List (String × α)) (hmem : k ∉ d.map Prod.fst) :
    alookup k (d ++ tail) = alookup k tail := by
  induction d with
  | nil => rfl
  | cons hd rest ih =>
    obtain ⟨k0, v0⟩ := hd
    rw [List.cons_append, alookup,
      if_neg (fun he => hmem (List.mem_cons.mpr (Or.inl he)))]
    exact ih (fun hm => hmem (List.mem_cons.mpr (Or.inr hm)))

theorem alookup_append_singleton_ne {α : Type} (d : List (String × α)) (k k' : String)
    (v : α) (h : k' ≠ k) : alookup k' (d ++ [(k, v)]) = alookup k' d := by
  induction d with
  | nil => simp [alookup, h]
  | cons hd rest ih =>
    obtain ⟨k0, v0⟩ := hd
    rw [List.cons_append, alookup, alookup]
    by_cases hk' : k' = k0
    · rw [if_pos hk', if_pos hk']
    · rw [if_neg hk', if_neg hk']
      exact ih

theorem alookup_dictSet_self {α : Type} (d : List (String × α)) (k : String) (v : α) :
    alookup k (dictSet d k v) = some v := by
  by_cases hmem : k ∈ d.map Prod.fst
  · rw [dictSet, if_pos hmem]
    exact alookup_map_replace_mem d k v hmem
  · rw [dictSet, if_neg hmem, alookup_append_not_mem d k _ hmem, alookup, if_pos rfl]

theorem alookup_dictSet_ne {α : Type} (d : List (String × α)) (k k' : String) (v : α)
    (h : k' ≠ k) : alookup k' (dictSet d k v) = alookup k' d := by
  by_cases hmem : k ∈ d.map Prod.fst
  · rw [dictSet, if_pos hmem]
    exact alookup_map_replace_ne d k k' v h
  · rw [dictSet, if_neg hmem]
    exact alookup_append_singleton_ne d k k' v h

/-- `dict.update` key-wise: a key of `other` gets `other`'s value (wholesale
replacement), any other key keeps `d`'s value. -/
theorem alookup_dictUpdate {α : Type} (other d : List (String × α))
    (hnd : (other.map Prod.fst).Nodup) (k : String) :
    (k ∈ other.map Prod.fst → alookup k (dictUpdate d other) = alookup k other) ∧
      (k ∉ other.map Prod.fst → alookup k (dictUpdate d other) = alookup k d) := by
  induction other generalizing d with
  | nil => exact ⟨fun h => absurd h (by simp), fun _ => by rw [dictUpdate]⟩
  | cons hd rest ih =>
    obtain ⟨k0, v0⟩ := hd
    rw [List.map_cons, List.nodup_cons] at hnd
    rw [dictUpdate]
    rcases ih (dictSet d k0 v0) hnd.2 with ⟨ih1, ih2⟩
    constructor
    · intro hmem
      by_cases hk : k = k0
      · subst hk
        rw [ih2 (fun h => hnd.1 h), alookup_dictSet_self]
        simp [alookup]
      · have : k ∈ rest.map Prod.fst := by
          rcases List.mem_cons.mp hmem with h | h
          · exact absurd h hk
          · exact h
        rw [ih1 this]
        simp [alookup, if_neg hk]
    · intro hmem
      have hk : k ≠ k0 := fun he => hmem (List.mem_cons.mpr (Or.inl he))
      have hrest : k ∉ rest.map Prod.fst := fun h => hmem (List.mem_cons.mpr (Or.inr h))
      rw [ih2 hrest, alookup_dictSet_ne _ _ _ _ hk]

/-- `dict.update` with fresh, mutually distinct keys appends. -/
theorem dictUpdate_disjoint_append {α : Type} (other d : List (String × α))
    (hdisj : ∀ k ∈ other.map Prod.fst, k ∉ d.map Prod.fst)
    (hnd : (other.map Prod.fst).Nodup) :
    dictUpdate d other = d ++ other := by
  induction other generalizing d with
  | nil => rw [dictUpdate]; simp
  | cons hd rest ih =>
    obtain ⟨k0, v0⟩ := hd
    rw [List.map_cons, List.nodup_cons] at hnd
    rw [dictUpdate]
    have hset : dictSet d k0 v0 = d ++ [(k0, v0)] := by
      rw [dictSet, if_neg (hdisj k0 (by simp))]
    rw [hset, ih]
    · simp
    · intro k hk
      rw [List.map_append]
      intro hmem
      rcases List.mem_append.mp hmem with h | h
      · exact hdisj k (List.mem_cons.mpr (Or.inr hk)) h
      · simp only [List.map_cons, List.map_nil, List.mem_singleton] at h
        exact hnd.1 (h ▸ hk)
    · exact hnd.2

theorem Store.add_model (a b : Store) : (Store.add a b).model = a.model := by
  obtain ⟨m, o, r, an, sel, pre⟩ := a
  obtain ⟨m2, o2, r2, an2, sel2, pre2⟩ := b
  rfl

theorem Store.add_only (a b : Store) :
    (Store.add a b).only_fields = a.only_fields ++ b.only_fields := by
  obtain ⟨m, o, r, an, sel, pre⟩ := a
  obtain ⟨m2, o2, r2, an2, sel2, pre2⟩ := b
  rfl

theorem Store.add_related (a b : Store) :
    (Store.add a b).related_fields = a.related_fields ++ b.related_fields := by
  obtain ⟨m, o, r, an, sel, pre⟩ := a
  obtain ⟨m2, o2, r2, an2, sel2, pre2⟩ := b
  rfl

theorem Store.add_anns (a b : Store) :
    (Store.add a b).annotations = dictUpdate a.annotations b.annotations := by
  obtain ⟨m, o, r, an, sel, pre⟩ := a
  obtain ⟨m2, o2, r2, an2, sel2, pre2⟩ := b
  rfl

theorem Store.add_sel (a b : Store) :
    (Store.add a b).select_stores = dictUpdate a.select_stores b.select_stores := by
  obtain ⟨m, o, r, an, sel, pre⟩ := a
  obtain ⟨m2, o2, r2, an2, sel2, pre2⟩ := b
  rfl

theorem Store.add_pre (a b : Store) :
    (Store.add a b).prefetch_stores = dictUpdate a.prefetch_stores b.prefetch_stores := by
  obtain ⟨m, o, r, an, sel, pre⟩ := a
  obtain ⟨m2, o2, r2, an2, sel2, pre2⟩ := b
  rfl

/-- C3 counterexample: `__add__` does NOT merge child nodes recursively when
the same relation name is present in both operands; `dict.update` replaces
A's child with B's wholesale. Here the merged node's child under `"r"` has
columns `["b"]`, whereas a recursive merge of the two children would have
`["a", "b"]`. -/
theorem merge_not_recursive_counterexample :
    alookup "r" (Store.add C3A C3B).select_stores = some C3childB ∧
      C3childB.only_fields = ["b"] ∧
      (Store.add C3childA C3childB).only_fields = ["a", "b"] ∧
      (["b"] : List String) ≠ ["a", "b"] := by
  refine ⟨rfl, rfl, rfl, by decide⟩

/-- C3 amended: `__add__` concatenates the column and support-column lists
(A's entries first, duplicates preserved), keeps A's entity type, and
`dict.update`s the annotation and child maps key-wise: a key present in B
takes B's value (for child maps: B's child node wholesale, with no recursive
merge), and a key absent from B keeps A's value. -/
theorem merge_semantics (a b : Store)
    (hann : (b.annotations.map Prod.fst).Nodup)
    (hsel : (b.select_stores.map Prod.fst).Nodup)
    (hpre : (b.prefetch_stores.map Prod.fst).Nodup) :
    (Store.add a b).only_fields = a.only_fields ++ b.only_fields ∧
      (Store.add a b).related_fields = a.related_fields ++ b.related_fields ∧
      (Store.add a b).model = a.model ∧
      (∀ k, k ∈ b.annotations.map Prod.fst →
        alookup k (Store.add a b).annotations = alookup k b.annotations) ∧
      (∀ k, k ∉ b.annotations.map Prod.fst →
        alookup k (Store.add a b).annotations = alookup k a.annotations) ∧
      (∀ k, k ∈ b.select_stores.map Prod.fst →
        alookup k (Store.add a b).select_stores = alookup k b.select_stores) ∧
      (∀ k, k ∉ b.select_stores.map Prod.fst →
        alookup k (Store.add a b).select_stores = alookup k a.select_stores) ∧
      (∀ k, k ∈ b.prefetch_stores.map Prod.fst →
        alookup k (Store.add a b).prefetch_stores = alookup k b.prefetch_stores) ∧
      (∀ k, k ∉ b.prefetch_stores.map Prod.fst →
        alookup k (Store.add a b).prefetch_stores = alookup k a.prefetch_stores) := by
  refine ⟨Store.add_only a b, Store.add_related a b, Store.add_model a b, ?_, ?_, ?_, ?_, ?_, ?_⟩
  · intro k hk
    rw [Store.add_anns]
    exact (alookup_dictUpdate b.annotations a.annotations hann k).1 hk
  · intro k hk
    rw [Store.add_anns]
    exact (alookup_dictUpdate b.annotations a.annotations hann k).2 hk
  · intro k hk
    rw [Store.add_sel]
    exact (alookup_dictUpdate b.select_stores a.select_stores hsel k).1 hk
  · intro k hk
    rw [Store.add_sel]
    exact (alookup_dictUpdate b.select_stores a.select_stores hsel k).2 hk
  · intro k hk
    rw [Store.add_pre]
    exact (alookup_dictUpdate b.prefetch_stores a.prefetch_stores hpre k).1 hk
  · intro k hk
    rw [Store.add_pre]
    exact (alookup_dictUpdate b.prefetch_stores a.prefetch_stores hpre k).2 hk

theorem merge_semantics_witness :
    (Store.add C3A C3B).only_fields = C3A.only_fields ++ C3B.only_fields ∧
      (Store.add C3A C3B).related_fields = C3A.related_fields ++ C3B.related_fields ∧
      (Store.add C3A C3B).model = C3A.model ∧
      (∀ k, k ∈ C3B.annotations.map Prod.fst →
        alookup k (Store.add C3A C3B).annotations = alookup k C3B.annotations) ∧
      (∀ k, k ∉ C3B.annotations.map Prod.fst →
        alookup k (Store.add C3A C3B).annotations = alookup k C3A.annotations) ∧
      (∀ k, k ∈ C3B.select_stores.map Prod.fst →
        alookup k (Store.add C3A C3B).select_stores = alookup k C3B.select_stores) ∧
      (∀ k, k ∉ C3B.select_stores.map Prod.fst →
        alookup k (Store.add C3A C3B).select_stores = alookup k C3A.select_stores) ∧
      (∀ k, k ∈ C3B.prefetch_stores.map Prod.fst →
        alookup k (Store.add C3A C3B).prefetch_stores = alookup k C3B.prefetch_stores) ∧
      (∀ k, k ∉ C3B.prefetch_stores.map Prod.fst →
        alookup k (Store.add C3A C3B).prefetch_stores = alookup k C3A.prefetch_stores) :=
  merge_semantics C3A C3B (by decide) (by decide) (by decide)

/-- C6 (merge commutativity on disjoint inputs): for same-entity-type nodes
with disjoint column lists and disjoint child-relation key sets (and the
dict-invariant of duplicate-free keys), merging either way round gives the
same column sets and the same child-relation key sets. -/
theorem merge_comm_disjoint (a b : Store)
    (hmodel : a.model = b.model)
    (hcol : ∀ x ∈ a.only_fields, x ∉ b.only_fields)
    (hrel : ∀ x ∈ a.related_fields, x ∉ b.related_fields)
    (hselD : ∀ k ∈ a.select_stores.map Prod.fst, k ∉ b.select_stores.map Prod.fst)
    (hpreD : ∀ k ∈ a.prefetch_stores.map Prod.fst, k ∉ b.prefetch_stores.map Prod.fst)
    (hselA : (a.select_stores.map Prod.fst).Nodup)
    (hselB : (b.select_stores.map Prod.fst).Nodup)
    (hpreA : (a.prefetch_stores.map Prod.fst).Nodup)
    (hpreB : (b.prefetch_stores.map Prod.fst).Nodup) :
    (∀ x, x ∈ (Store.add a b).only_fields ↔ x ∈ (Store.add b a).only_fields) ∧
      (∀ x, x ∈ (Store.add a b).related_fields ↔ x ∈ (Store.add b a).related_fields) ∧
      (∀ k, k ∈ (Store.add a b).select_stores.map Prod.fst ↔
        k ∈ (Store.add b a).select_stores.map Prod.fst) ∧
      (∀ k, k ∈ (Store.add a b).prefetch_stores.map Prod.fst ↔
        k ∈ (Store.add b a).prefetch_stores.map Prod.fst) := by
  have hselD' : ∀ k ∈ b.select_stores.map Prod.fst, k ∉ a.select_stores.map Prod.fst :=
    fun k hkb hka => hselD k hka hkb
  have hpreD' : ∀ k ∈ b.prefetch_stores.map Prod.fst, k ∉ a.prefetch_stores.map Prod.fst :=
    fun k hkb hka => hpreD k hka hkb
  refine ⟨?_, ?_, ?_, ?_⟩
  · intro x
    rw [Store.add_only, Store.add_only, List.mem_append, List.mem_append]
    exact or_comm
  · intro x
    rw [Store.add_related, Store.add_related, List.mem_append, List.mem_append]
    exact or_comm
  · intro k
    rw [Store.add_sel, Store.add_sel,
      dictUpdate_disjoint_append _ _ hselD' hselB,
      dictUpdate_disjoint_append _ _ hselD hselA,
      List.map_append, List.map_append, List.mem_append, List.mem_append]
    exact or_comm
  · intro k
    rw [Store.add_pre, Store.add_pre,
      dictUpdate_disjoint_append _ _ hpreD' hpreB,
      dictUpdate_disjoint_append _ _ hpreD hpreA,
      List.map_append, List.map_append, List.mem_append, List.mem_append]
    exact or_comm

theorem merge_comm_disjoint_witness :
    (∀ x, x ∈ (Store.add C6A C6B).only_fields ↔ x ∈ (Store.add C6B C6A).only_fields) ∧
      (∀ x, x ∈ (Store.add C6A C6B).related_fields ↔ x ∈ (Store.add C6B C6A).related_fields) ∧
      (∀ k, k ∈ (Store.add C6A C6B).select_stores.map Prod.fst ↔
        k ∈ (Store.add C6B C6A).select_stores.map Prod.fst) ∧
      (∀ k, k ∈ (Store.add C6A C6B).prefetch_stores.map Prod.fst ↔
        k ∈ (Store.add C6B C6A).prefetch_stores.map Prod.fst) :=
  merge_comm_disjoint C6A C6B rfl (by decide) (by decide) (by decide) (by decide)
    (by decide) (by decide) (by decide) (by decide)

/-- C8 counterexample: `__add__` performs no entity-type check at all.
Merging two stores whose models differ is silently accepted and yields an
ordinary merged node (keeping the left operand's model) — no fault is
signaled. -/
theorem merge_type_mismatch_counterexample :
    C8A.model ≠ C8B.model ∧
      Store.add C8A C8B = Store.mk 0 ["a", "b"] [] [] [] [] := by
  exact ⟨by decide, rfl⟩

/-- C8 amended: merging two nodes whose entity types differ is silently
accepted: `__add__` is total, combines the fields exactly as for matching
types, and the result keeps the left operand's entity type. -/
theorem merge_ignores_model (a b : Store) (h : a.model ≠ b.model) :
    (Store.add a b).model = a.model ∧
      (Store.add a b).only_fields = a.only_fields ++ b.only_fields ∧
      (Store.add a b).related_fields = a.related_fields ++ b.related_fields := by
  exact ⟨Store.add_model a b, Store.add_only a b, Store.add_related a b⟩

theorem merge_ignores_model_witness :
    (Store.add C8A C8B).model = C8A.model ∧
      (Store.add C8A C8B).only_fields = C8A.only_fields ++ C8B.only_fields ∧
      (Store.add C8A C8B).related_fields = C8A.related_fields ++ C8B.related_fields :=
  merge_ignores_model C8A C8B (by decide)

theorem applyOps_eq (m : Nat) (o r : List String) (a : List (String × Expr))
    (sel pre : List (String × Store)) (ops : List StoreOp) :
    Store.applyOps (Store.mk m o r a sel pre) ops =
      Store.mk m (insertAll o (colNames ops)) (insertAll r (supNames ops)) a sel pre := by
  induction ops generalizing o r with
  | nil => rw [Store.applyOps, colNames, supNames, insertAll, insertAll]
  | cons op rest ih =>
    cases op with
    | addColumn n =>
      rw [Store.applyOps, Store.applyOp, colNames, supNames, insertAll, ih]
    | addSupportColumn n =>
      rw [Store.applyOps, Store.applyOp, colNames, supNames, insertAll, ih]

/-- C9 (idempotent column set): `compile` reads but never mutates the store,
so in this embedding it is a pure function and two compilations of the same
un-mutated node are one and the same application; moreover the compiled
columns depend only on the sequence of `addColumn` names, not on how
`addSupportColumn` calls were interleaved with them before compiling. -/
theorem columns_ignore_support_interleaving (dis : Bool) (s : Store)
    (ops1 ops2 : List StoreOp) (hcol : colNames ops1 = colNames ops2) :
    ((s.applyOps ops1).compile dis).only_fields =
      ((s.applyOps ops2).compile dis).only_fields := by
  obtain ⟨m, o, r, a, sel, pre⟩ := s
  rw [applyOps_eq, applyOps_eq, Store.compile_only, Store.compile_only]
  simp only [Store.only_fields, Store.select_stores, hcol]

theorem columns_ignore_support_interleaving_witness :
    ((C7s.applyOps [StoreOp.addColumn "a", StoreOp.addSupportColumn "s"]).compile false).only_fields =
      ((C7s.applyOps [StoreOp.addSupportColumn "s", StoreOp.addColumn "a"]).compile false).only_fields :=
  columns_ignore_support_interleaving false C7s
    [StoreOp.addColumn "a", StoreOp.addSupportColumn "s"]
    [StoreOp.addSupportColumn "s", StoreOp.addColumn "a"]
    rfl

/-- C10 (in-place merge): `__add__` mutates its left operand in place —
extending its column and support-column lists and `dict.update`-ing its
annotation and child maps with the right operand's — returns the left
operand itself (the same address, not a fresh node), and leaves the right
operand and every other object on the heap unchanged. -/
theorem add_mutates_left_in_place (h : Nat → Store) (ia ib : Nat) (hne : ia ≠ ib) :
    (heapAdd h ia ib).2 = ia ∧
      ((heapAdd h ia ib).1 ia).model = (h ia).model ∧
      ((heapAdd h ia ib).1 ia).only_fields = (h ia).only_fields ++ (h ib).only_fields ∧
      ((heapAdd h ia ib).1 ia).related_fields = (h ia).related_fields ++ (h ib).related_fields ∧
      ((heapAdd h ia ib).1 ia).annotations = dictUpdate (h ia).annotations (h ib).annotations ∧
      ((heapAdd h ia ib).1 ia).select_stores =
        dictUpdate (h ia).select_stores (h ib).select_stores ∧
      ((heapAdd h ia ib).1 ia).prefetch_stores =
        dictUpdate (h ia).prefetch_stores (h ib).prefetch_stores ∧
      (heapAdd h ia ib).1 ib = h ib ∧
      (∀ j, j ≠ ia → (heapAdd h ia ib).1 j = h j) := by
  have hia : (heapAdd h ia ib).1 ia = Store.add (h ia) (h ib) := by
    rw [heapAdd]
    exact if_pos rfl
  have hother : ∀ j, j ≠ ia → (heapAdd h ia ib).1 j = h j := by
    intro j hj
    rw [heapAdd]
    exact if_neg hj
  refine ⟨rfl, ?_, ?_, ?_, ?_, ?_, ?_, hother ib (fun he => hne he.symm), hother⟩
  · rw [hia]; exact Store.add_model _ _
  · rw [hia]; exact Store.add_only _ _
  · rw [hia]; exact Store.add_related _ _
  · rw [hia]; exact Store.add_anns _ _
  · rw [hia]; exact Store.add_sel _ _
  · rw [hia]; exact Store.add_pre _ _

theorem add_mutates_left_in_place_witness :
    (heapAdd C10heap 0 1).2 = 0 ∧
      ((heapAdd C10heap 0 1).1 0).model = (C10heap 0).model ∧
      ((heapAdd C10heap 0 1).1 0).only_fields =
        (C10heap 0).only_fields ++ (C10heap 1).only_fields ∧
      ((heapAdd C10heap 0 1).1 0).related_fields =
        (C10heap 0).related_fields ++ (C10heap 1).related_fields ∧
      ((heapAdd C10heap 0 1).1 0).annotations =
        dictUpdate (C10heap 0).annotations (C10heap 1).annotations ∧
      ((heapAdd C10heap 0 1).1 0).select_stores =
        dictUpdate (C10heap 0).select_stores (C10heap 1).select_stores ∧
      ((heapAdd C10heap 0 1).1 0).prefetch_stores =
        dictUpdate (C10heap 0).prefetch_stores (C10heap 1).prefetch_stores ∧
      (heapAdd C10heap 0 1).1 1 = C10heap 1 ∧
      (∀ j, j ≠ 0 → (heapAdd C10heap 0 1).1 j = C10heap j) :=
  add_mutates_left_in_place C10heap 0 1 (by decide)

end QueryOptimizer
